import Mathlib

/-!
Verification of the document ingestion and chunking subsystem
(`src/backend/scripts/chunking/files/test-cpp.cpp` and `test-c.c`).

Strings are modelled as `List Char`; `std::string` / `char *` operations are
translated to list operations.  Machine-integer conversions that matter
(the C++ `int` chunk size compared against `size_t` lengths) are made
explicit with a modulo-2^64 conversion.
-/

namespace Knowledge

/-- The C++ `int` to `size_t` conversion (64-bit), used implicitly by the
comparison `currentChunk.length() + sentence.length() > chunkSize_`
in `TextChunker::chunk`: the signed `chunkSize_` is converted to an
unsigned 64-bit value, i.e. reduced modulo 2^64. -/
def toSizeT (n : Int) : Nat := (n % (2 : Int) ^ 64).toNat

/-- Whitespace as recognised by C++ `operator>>` on `std::istringstream`
in the default C locale: space, form feed, newline, carriage return,
horizontal tab, vertical tab. -/
def isStreamSpace (c : Char) : Bool :=
  c = ' ' || c = '\x0c' || c = '\n' || c = '\x0d' || c = '\t' || c = '\x0b'

/-- Whitespace as recognised by the C implementation `document_create`
(`test-c.c` line 46): exactly space, newline and horizontal tab. -/
def isSpaceC (c : Char) : Bool :=
  c = ' ' || c = '\n' || c = '\t'

/-- The two-state token-counting automaton shared by both word counters:
`count` words seen so far, `inWord` whether the previous character was
part of a word.  A word boundary (first non-space character after a space
or at the start) increments the count. -/
def runsLoop (sp : Char → Bool) (count : Nat) (inWord : Bool) : List Char → Nat
  | [] => count
  | c :: rest =>
    if sp c then runsLoop sp count false rest
    else if inWord then runsLoop sp count true rest
    else runsLoop sp (count + 1) true rest

/-- Specification-side definition of the number of maximal runs of
non-whitespace characters: split on the whitespace predicate and count
the non-empty pieces.  Written independently of the loops above. -/
def runCount (sp : Char → Bool) (s : List Char) : Nat :=
  ((s.splitOnP sp).filter (fun r => !r.isEmpty)).length

/-- Error kinds surfaced by the subsystem. -/
inductive DocError where
  | invalidArgument
  | unsupportedMediaType
deriving DecidableEq, Repr

/-- `knowledge::Document` (`test-cpp.cpp` lines 16-50): content, source and
the word count computed once at construction. -/
structure Document where
  content : List Char
  source : List Char
  wordCount : Nat
deriving DecidableEq, Repr

/-- `Document::countWords` (`test-cpp.cpp` lines 22-30):
`while (stream >> word) count++;` — `operator>>` skips characters of the
default-locale whitespace class and extracts one maximal run of
non-whitespace characters, failing at end of input, so the loop counts
the maximal non-whitespace runs with respect to `isStreamSpace`. -/
def Document.countWords (text : List Char) : Nat :=
  runsLoop isStreamSpace 0 false text

/-- The `Document` constructor (`test-cpp.cpp` lines 39-45): throws
`std::invalid_argument` when `content` is empty, otherwise stores the
strings and computes the word count. -/
def Document.create (content source : List Char) : Except DocError Document :=
  if content = [] then .error .invalidArgument
  else .ok ⟨content, source, Document.countWords content⟩

/-- The word-counting loop of `document_create` (`test-c.c` lines 43-52):
the literal `in_word` automaton over space, newline and tab. -/
def word_count (content : List Char) : Nat :=
  runsLoop isSpaceC 0 false content

/-- `document_create` (`test-c.c` lines 28-55): returns NULL (here `none`)
when `content` is empty, otherwise a document carrying copies of the
strings and the `in_word` word count.  Allocation failure is not
modelled. -/
def document_create (content source : List Char) : Option Document :=
  if content = [] then none
  else some ⟨content, source, word_count content⟩

/-- `knowledge::DocumentParser` (`test-cpp.cpp` lines 55-68): the virtual
interface, modelled as a capability record. `parse` may fail the way the
`Document` constructor can. -/
structure DocumentParser where
  supports : List Char → Bool
  parse : List Char → List Char → Except DocError Document

/-- `knowledge::TextParser` (`test-cpp.cpp` lines 73-82): claims exactly
the MIME type "text/plain" and parses by passing the buffer through to
the `Document` constructor. -/
def TextParser : DocumentParser where
  supports := fun mimeType => mimeType = "text/plain".toList
  parse := fun buffer filename => Document.create buffer filename

/-- Modelled from the spec: the parser registry and its dispatch are not
part of src/ (only the `DocumentParser` interface and `TextParser` are);
section 4.2 of the spec describes dispatch as a first-match-wins linear
scan over the registered parsers that fails with `UnsupportedMediaType`
when no parser's `supports` returns true. -/
def dispatch (registry : List DocumentParser) (mimeType : List Char) :
    Except DocError DocumentParser :=
  match registry with
  | [] => .error .unsupportedMediaType
  | p :: rest => if p.supports mimeType then .ok p else dispatch rest mimeType

/-- `std::getline(stream, sentence, '.')` iterated over `text`
(`test-cpp.cpp` line 106): yields the segments between `'.'` delimiters,
consuming each delimiter.  A trailing delimiter produces no further
segment (the next `getline` fails at end of input), while interior
consecutive delimiters produce empty segments. `acc` holds the current
segment reversed. -/
def splitDotAux : List Char → List Char → List (List Char)
  | [], acc => [acc.reverse]
  | c :: rest, acc =>
    if c = '.' then
      if rest.isEmpty then [acc.reverse]
      else acc.reverse :: splitDotAux rest []
    else splitDotAux rest (c :: acc)

/-- All segments produced by the `getline` loop; the empty text yields no
segment at all because the very first `getline` fails. -/
def splitDot (text : List Char) : List (List Char) :=
  match text with
  | [] => []
  | _ :: _ => splitDotAux text []

/-- `knowledge::TextChunker` (`test-cpp.cpp` lines 87-127): holds the
configured chunk size. -/
structure TextChunker where
  chunkSize : Int
deriving DecidableEq, Repr

/-- The `TextChunker` constructor (`test-cpp.cpp` line 92): stores the
given size unchecked; the default argument is 1000. -/
def TextChunker.make (chunkSize : Int := 1000) : TextChunker :=
  ⟨chunkSize⟩

/-- The body of `TextChunker::chunk` (`test-cpp.cpp` lines 106-123): for
each sentence segment, empty segments are skipped; if the accumulated
chunk plus the segment would exceed the (size_t-converted) chunk size and
the accumulator is non-empty, the accumulator is flushed; the segment is
then appended, preceded by ". " when the accumulator is non-empty.  After
the loop a non-empty accumulator is flushed. -/
def chunkLoop (chunkSize : Int) : List (List Char) → List Char → List (List Char)
  | [], cur => if cur = [] then [] else [cur]
  | s :: rest, cur =>
    if s = [] then chunkLoop chunkSize rest cur
    else if cur.length + s.length > toSizeT chunkSize then
      if cur = [] then chunkLoop chunkSize rest s
      else cur :: chunkLoop chunkSize rest s
    else if cur = [] then chunkLoop chunkSize rest s
    else chunkLoop chunkSize rest (cur ++ '.' :: ' ' :: s)

/-- `TextChunker::chunk` (`test-cpp.cpp` lines 99-126). -/
def TextChunker.chunk (tc : TextChunker) (text : List Char) : List (List Char) :=
  chunkLoop tc.chunkSize (splitDot text) []

/-- Character at index `i` of the C string `s` (`start[i]`): the NUL
terminator past the end is modelled as the character of code 0. -/
def charAt (s : List Char) (i : Nat) : Char := s.getD i (Char.ofNat 0)

/-- The boundary search of `chunk_text` (`test-c.c` line 91):
`while (len > 0 && start[len] != '.' && start[len] != '\n') len--;`
returns the final value of `len`. -/
def scanBack (s : List Char) : Nat → Nat
  | 0 => 0
  | n + 1 =>
    if charAt s (n + 1) = '.' || charAt s (n + 1) = '\n' then n + 1
    else scanBack s n

/-- The loop of `chunk_text` (`test-c.c` lines 85-101), fuelled by the
length of the text: each iteration consumes at least one character when
`chunk_size` is positive, so `text.length` is enough fuel.  The chunk
length is the remaining length when it is below `chunk_size`, otherwise
the boundary found by `scanBack` plus one (including the delimiter), or
`chunk_size` itself when no boundary was found. -/
def chunkTextLoop (chunk_size : Nat) : Nat → List Char → List (List Char)
  | 0, _ => []
  | _, [] => []
  | fuel + 1, s =>
    let len :=
      if s.length < chunk_size then s.length
      else
        let b := scanBack s chunk_size
        if b = 0 then chunk_size else b + 1
    s.take len :: chunkTextLoop chunk_size fuel (s.drop len)

/-- `chunk_text` (`test-c.c` lines 76-104), for a positive `chunk_size`
(a non-positive one makes the C loop run forever). -/
def chunk_text (text : List Char) (chunk_size : Nat) : List (List Char) :=
  chunkTextLoop chunk_size text.length text

/-- Concatenation of fragments with the `'.'` delimiter restored after
each fragment: the shape of a text that "consists only of '.'-delimited
fragments with no trailing content after the last '.'". -/
def joinDots (fs : List (List Char)) : List Char :=
  (fs.map (fun f => f ++ ['.'])).flatten

/-- The accumulator of `TextChunker::chunk` as a function of the
fragments it holds: fragments joined by the inserted ". " separator. -/
def joinSep : List (List Char) → List Char
  | [] => []
  | [g] => g
  | g :: gs => g ++ '.' :: ' ' :: joinSep gs

/-- Removal of the inserted ". " separators from a chunk: split the chunk
at each occurrence of `'.'` followed by `' '`, consuming the pair.  On
chunks built from '.'-free fragments this recovers exactly the
fragments. -/
def splitSepAux : List Char → List Char → List (List Char)
  | [], acc => [acc.reverse]
  | [c], acc => [(c :: acc).reverse]
  | c :: c2 :: rest, acc =>
    if c = '.' ∧ c2 = ' ' then acc.reverse :: splitSepAux rest []
    else splitSepAux (c2 :: rest) (c :: acc)

/-- The fragments of a chunk, with the inserted separators removed. -/
def splitSep (chunk : List Char) : List (List Char) :=
  splitSepAux chunk []

end Knowledge

namespace Knowledge

/-- The token automaton counts, on top of `count`, the non-empty pieces of
the `splitOnP` decomposition — all of them when starting outside a word,
and only those after the first piece when starting inside a word. -/
theorem runsLoop_splitOnP (sp : Char → Bool) :
    ∀ (s : List Char) (count : Nat),
      runsLoop sp count false s =
        count + ((s.splitOnP sp).filter (fun r => !r.isEmpty)).length ∧
      runsLoop sp count true s =
        count + ((s.splitOnP sp).tail.filter (fun r => !r.isEmpty)).length := by
  intro s
  induction s with
  | nil => intro count; simp [runsLoop]
  | cons c rest ih =>
    intro count
    by_cases h : sp c
    · simp only [runsLoop, h, if_true, List.splitOnP_cons]
      constructor
      · rw [(ih count).1]
        simp
      · rw [(ih count).1]
        simp
    · rcases hsp : rest.splitOnP sp with _ | ⟨piece, pieces⟩
      · exact absurd hsp (List.splitOnP_ne_nil _ _)
      · simp only [runsLoop, h, if_false, List.splitOnP_cons, hsp]
        constructor
        · rw [(ih (count + 1)).2, hsp]
          simp [Nat.add_assoc, Nat.add_comm 1]
        · rw [(ih count).2, hsp]
          simp

/-- Claim C3 fails on the C++ implementation: a carriage return separates
words for `std::istream` extraction, so the Document built from
"a CR b" has word count 2, while the number of maximal runs of
characters outside the claimed space-tab-newline whitespace class is 1. -/
theorem claim3_counterexample :
    Document.create ['a', '\x0d', 'b'] [] =
      Except.ok ⟨['a', '\x0d', 'b'], [], 2⟩ ∧
    runCount isSpaceC ['a', '\x0d', 'b'] = 1 := by
  constructor
  · rfl
  · decide

/-- Claim C3 (amended): for every Document successfully constructed from a
non-empty content, the C++ word count equals the number of maximal runs
of non-whitespace characters where whitespace is the six default-locale
space characters (space, tab, newline, vertical tab, form feed, carriage
return), while the C implementation's word count equals the number of
maximal runs with whitespace exactly space, tab and newline. -/
theorem claim3_wordCount_runs (content source : List Char) (doc : Document)
    (h : Document.create content source = Except.ok doc) :
    doc.wordCount = runCount isStreamSpace content ∧
    word_count content = runCount isSpaceC content := by
  have hc : doc.wordCount = Document.countWords content := by
    unfold Document.create at h
    by_cases he : content = []
    · simp [he] at h
    · simp [he] at h
      rw [← h]
  constructor
  · rw [hc]
    unfold Document.countWords runCount
    rw [(runsLoop_splitOnP isStreamSpace content 0).1]
    exact Nat.zero_add _
  · unfold word_count runCount
    rw [(runsLoop_splitOnP isSpaceC content 0).1]
    exact Nat.zero_add _

/-- Witness for claim C3's theorem at content "a b". -/
theorem claim3_witness :
    (Document.mk ['a', ' ', 'b'] [] 2).wordCount = runCount isStreamSpace ['a', ' ', 'b'] ∧
    word_count ['a', ' ', 'b'] = runCount isSpaceC ['a', ' ', 'b'] :=
  claim3_wordCount_runs ['a', ' ', 'b'] [] ⟨['a', ' ', 'b'], [], 2⟩ rfl

/-- Claim C4: constructing a Document from empty content fails for every
source: the C++ constructor throws InvalidArgument and the C
`document_create` returns NULL; no Document is produced. -/
theorem claim4_empty_content_rejected (source : List Char) :
    Document.create [] source = Except.error DocError.invalidArgument ∧
    document_create [] source = none :=
  ⟨rfl, rfl⟩

/-- Witness for claim C4's theorem at source "test.txt". -/
theorem claim4_witness :
    Document.create [] "test.txt".toList = Except.error DocError.invalidArgument ∧
    document_create [] "test.txt".toList = none :=
  claim4_empty_content_rejected "test.txt".toList

/-- Claim C5 fails on the code: the TextChunker constructor stores any
chunk size unchecked, so a non-positive size is accepted silently with no
InvalidArgument rejection at configuration time. -/
theorem claim5_nonpositive_size_accepted :
    TextChunker.make 0 = TextChunker.mk 0 ∧
    TextChunker.make (-5) = TextChunker.mk (-5) :=
  ⟨rfl, rfl⟩

/-- Claim C8: chunking the empty text yields the empty chunk sequence for
every configured chunk size — the getline loop never runs and the empty
accumulator is not flushed. -/
theorem claim8_empty_text_empty_chunks (chunkSize : Int) :
    (TextChunker.make chunkSize).chunk [] = [] :=
  rfl

/-- Witness for claim C8's theorem at chunk size 7. -/
theorem claim8_witness : (TextChunker.make 7).chunk [] = [] :=
  claim8_empty_text_empty_chunks 7

end Knowledge

namespace Knowledge

/-- Claim C2 fails on the code: the getline split consumes the '.'
delimiters without restoring them and keeps the space that followed each
'.' at the front of the next fragment, so none of the three expected
chunks is produced. -/
theorem claim2_counterexample :
    (TextChunker.make 20).chunk
        "A short sentence. Another one here. And a third.".toList ≠
      ["A short sentence.".toList, "Another one here.".toList,
        "And a third.".toList] := by
  decide

/-- Claim C2 (amended): chunking "A short sentence. Another one here. And
a third." with chunk size 20 yields exactly three chunks in document
order, namely "A short sentence", " Another one here" and " And a third":
each '.' delimiter is consumed rather than restored, and the space that
followed it stays at the beginning of the following chunk. -/
theorem claim2_three_chunks :
    (TextChunker.make 20).chunk
        "A short sentence. Another one here. And a third.".toList =
      ["A short sentence".toList, " Another one here".toList,
        " And a third".toList] := by
  decide

/-- Claim C9: the text parser claims exactly the MIME type "text/plain",
and dispatch over a registry fails with UnsupportedMediaType precisely
when no registered parser supports the requested type; in particular a
registry holding only the text parser rejects "text/markdown". -/
theorem claim9_dispatch_unsupported :
    (∀ m : List Char, TextParser.supports m = true ↔ m = "text/plain".toList) ∧
    dispatch [TextParser] "text/markdown".toList =
      Except.error DocError.unsupportedMediaType ∧
    (∀ (registry : List DocumentParser) (m : List Char),
      dispatch registry m = Except.error DocError.unsupportedMediaType ↔
        ∀ p ∈ registry, p.supports m = false) := by
  refine ⟨?_, ?_, ?_⟩
  · intro m
    simp [TextParser]
  · rfl
  · intro registry m
    induction registry with
    | nil => simp [dispatch]
    | cons p rest ih =>
      by_cases h : p.supports m
      · simp [dispatch, h]
      · simp [dispatch, h, ih]

/-- Witness for claim C9's theorem: the concrete dispatch failure. -/
theorem claim9_witness :
    dispatch [TextParser] "text/markdown".toList =
      Except.error DocError.unsupportedMediaType :=
  claim9_dispatch_unsupported.2.1

end Knowledge

namespace Knowledge

/-- The token automaton never decreases its accumulator. -/
theorem runsLoop_le (sp : Char → Bool) :
    ∀ (s : List Char) (count : Nat) (inWord : Bool),
      count ≤ runsLoop sp count inWord s := by
  intro s
  induction s with
  | nil => intro count inWord; exact Nat.le_refl _
  | cons c rest ih =>
    intro count inWord
    by_cases h : sp c
    · simpa [runsLoop, h] using ih count false
    · rcases inWord with _ | _
      · simpa [runsLoop, h] using Nat.le_trans (Nat.le_succ _) (ih (count + 1) true)
      · simpa [runsLoop, h] using ih count true

/-- Starting outside a word, the automaton counts at least one token as
soon as some character is not whitespace. -/
theorem runsLoop_pos_of_nonspace (sp : Char → Bool) :
    ∀ (s : List Char) (count : Nat), (∃ c ∈ s, sp c = false) →
      count + 1 ≤ runsLoop sp count false s := by
  intro s
  induction s with
  | nil => intro count h; rcases h with ⟨c, hc, _⟩; exact absurd hc (List.not_mem_nil c)
  | cons c rest ih =>
    intro count h
    by_cases hc : sp c
    · have hrest : ∃ d ∈ rest, sp d = false := by
        rcases h with ⟨d, hd, hdf⟩
        rcases List.mem_cons.mp hd with rfl | hdr
        · rw [hc] at hdf; exact absurd hdf (by simp)
        · exact ⟨d, hdr, hdf⟩
      simpa [runsLoop, hc] using ih count hrest
    · simpa [runsLoop, hc] using runsLoop_le sp rest (count + 1) true

/-- A string of whitespace only makes the automaton count nothing. -/
theorem runsLoop_all_space (sp : Char → Bool) :
    ∀ (s : List Char) (count : Nat) (inWord : Bool),
      (∀ c ∈ s, sp c = true) → runsLoop sp count inWord s = count := by
  intro s
  induction s with
  | nil => intro count inWord _; rfl
  | cons c rest ih =>
    intro count inWord h
    have hc : sp c = true := h c (List.mem_cons_self c rest)
    simpa [runsLoop, hc] using
      ih count false (fun d hd => h d (List.mem_cons_of_mem c hd))

/-- Claim C6 fails on the code: content consisting of a single space is
accepted by the Document constructor and produces a Document whose word
count is 0. -/
theorem claim6_counterexample :
    Document.create [' '] [] = Except.ok (Document.mk [' '] [] 0) :=
  rfl

/-- Claim C6 (amended): every successfully constructed Document has a
word count of at least 1 if and only if its content has at least one
non-whitespace character; non-empty all-whitespace content is accepted
and yields word count 0. -/
theorem claim6_wordCount_positive_iff (content source : List Char) (doc : Document)
    (h : Document.create content source = Except.ok doc) :
    1 ≤ doc.wordCount ↔ ∃ c ∈ content, isStreamSpace c = false := by
  have hc : doc.wordCount = Document.countWords content := by
    unfold Document.create at h
    by_cases he : content = []
    · simp [he] at h
    · simp [he] at h
      rw [← h]
  rw [hc]
  unfold Document.countWords
  constructor
  · intro h1
    by_contra hno
    push_neg at hno
    have hall : ∀ c ∈ content, isStreamSpace c = true := by
      intro c hmem
      cases hb : isStreamSpace c
      · exact absurd hb (hno c hmem)
      · rfl
    rw [runsLoop_all_space isStreamSpace content 0 false hall] at h1
    exact absurd h1 (by decide)
  · intro hex
    simpa using runsLoop_pos_of_nonspace isStreamSpace content 0 hex

/-- Witness for claim C6's theorem at content "a". -/
theorem claim6_witness :
    Document.create ['a'] [] = Except.ok (Document.mk ['a'] [] 1) ∧
    (1 ≤ (Document.mk ['a'] [] 1).wordCount ↔
      ∃ c ∈ ['a'], isStreamSpace c = false) :=
  ⟨rfl, claim6_wordCount_positive_iff ['a'] [] (Document.mk ['a'] [] 1) rfl⟩

/-- Scanning a delimiter-free prefix only moves it into the accumulator. -/
theorem splitDotAux_no_dot :
    ∀ (g : List Char), '.' ∉ g → ∀ (t acc : List Char),
      splitDotAux (g ++ t) acc = splitDotAux t (g.reverse ++ acc) := by
  intro g
  induction g with
  | nil => intro _ t acc; simp
  | cons c g' ih =>
    intro hdot t acc
    have hc : ¬c = '.' := fun h => hdot (h ▸ List.mem_cons_self c g')
    have hg' : '.' ∉ g' := fun h => hdot (List.mem_cons_of_mem c h)
    simp only [List.cons_append, splitDotAux, hc, if_false, List.append_eq]
    rw [ih hg' t (c :: acc)]
    simp

/-- Claim C7 fails on the C implementation: `chunk_text` is length-driven
when no boundary is found, so the delimiter-free text "ab" with chunk
size 1 is cut into two chunks instead of being returned whole. -/
theorem claim7_counterexample :
    chunk_text ['a', 'b'] 1 = [['a'], ['b']] ∧
    chunk_text ['a', 'b'] 1 ≠ [['a', 'b']] := by
  constructor
  · rfl
  · decide

/-- Claim C7 (amended): for the C++ `TextChunker::chunk`, every non-empty
text with no '.' character yields exactly one chunk equal to the whole
text, even when its length exceeds the positive chunk size; the C
`chunk_text` does not satisfy this, cutting at `chunk_size` when it finds
no '.' or newline boundary. -/
theorem claim7_no_delimiter_single_chunk (chunkSize : Int) (hpos : 0 < chunkSize)
    (text : List Char) (hne : text ≠ []) (hdot : '.' ∉ text) :
    (TextChunker.make chunkSize).chunk text = [text] := by
  have hsplit : splitDot text = [text] := by
    rcases text with _ | ⟨c, rest⟩
    · exact absurd rfl hne
    · show splitDotAux (c :: rest) [] = [c :: rest]
      have := splitDotAux_no_dot (c :: rest) hdot [] []
      simpa [splitDotAux] using this
  show chunkLoop chunkSize (splitDot text) [] = [text]
  rw [hsplit]
  simp [chunkLoop, hne]

/-- Witness for claim C7's theorem: text "ab" with chunk size 1. -/
theorem claim7_witness :
    (0 : Int) < 1 ∧ (TextChunker.make 1).chunk ['a', 'b'] = [['a', 'b']] :=
  ⟨by decide,
    claim7_no_delimiter_single_chunk 1 (by decide) ['a', 'b'] (by decide) (by decide)⟩

/-- Every chunk the accumulator loop emits is non-empty: the accumulator
is only pushed under a non-emptiness guard, both at a flush and after the
loop. -/
theorem chunkLoop_mem_ne_nil (chunkSize : Int) :
    ∀ (sents : List (List Char)) (cur c : List Char),
      c ∈ chunkLoop chunkSize sents cur → c ≠ [] := by
  intro sents
  induction sents with
  | nil =>
    intro cur c hc
    by_cases h : cur = []
    · simp [chunkLoop, h] at hc
    · simp [chunkLoop, h] at hc
      rw [hc]; exact h
  | cons s rest ih =>
    intro cur c hc
    by_cases hs : s = []
    · exact ih cur c (by simpa [chunkLoop, hs] using hc)
    · simp only [chunkLoop, hs, if_false] at hc
      split_ifs at hc with h1 h2 h3
      · exact ih s c hc
      · rcases List.mem_cons.mp hc with rfl | hmem
        · exact h2
        · exact ih s c hmem
      · exact ih s c hc
      · exact ih (cur ++ '.' :: ' ' :: s) c hc

/-- Claim C10: every element of the chunk sequence returned by
`TextChunker::chunk` is a non-empty string, for every text and every
configured chunk size. -/
theorem claim10_chunks_nonempty (chunkSize : Int) (text : List Char)
    (c : List Char) (h : c ∈ (TextChunker.make chunkSize).chunk text) :
    c ≠ [] :=
  chunkLoop_mem_ne_nil chunkSize (splitDot text) [] c h

/-- Witness for claim C10's theorem on the text "a.b." at chunk size 10. -/
theorem claim10_witness :
    ('a' :: '.' :: ' ' :: 'b' :: []) ∈
      (TextChunker.make 10).chunk "a.b.".toList ∧
    ('a' :: '.' :: ' ' :: 'b' :: []) ≠ [] :=
  ⟨by decide,
    claim10_chunks_nonempty 10 "a.b.".toList ('a' :: '.' :: ' ' :: 'b' :: [])
      (by decide)⟩

end Knowledge

namespace Knowledge

/-- A lone trailing delimiter flushes the accumulated segment and ends
the getline loop. -/
theorem splitDotAux_dot_last (acc : List Char) :
    splitDotAux ['.'] acc = [acc.reverse] := by
  simp [splitDotAux]

/-- An interior delimiter flushes the accumulated segment and restarts
the scan on the non-empty remainder. -/
theorem splitDotAux_dot_cons (t acc : List Char) (ht : t ≠ []) :
    splitDotAux ('.' :: t) acc = acc.reverse :: splitDotAux t [] := by
  rcases t with _ | ⟨c, cs⟩
  · exact absurd rfl ht
  · simp [splitDotAux]

/-- The getline split inverts `joinDots` on '.'-free fragments: scanning a
delimiter-free fragment accumulates it, and each '.' closes it. -/
theorem splitDot_joinDots :
    ∀ (fs : List (List Char)), (∀ f ∈ fs, '.' ∉ f) →
      splitDot (joinDots fs) = fs := by
  intro fs
  induction fs with
  | nil => intro _; rfl
  | cons f fs' ih =>
    intro h
    have hf : '.' ∉ f := h f (List.mem_cons_self f fs')
    have hfs' : ∀ g ∈ fs', '.' ∉ g := fun g hg => h g (List.mem_cons_of_mem f hg)
    have hjoin : joinDots (f :: fs') = f ++ '.' :: joinDots fs' := by
      simp [joinDots]
    rw [hjoin]
    have hne : f ++ '.' :: joinDots fs' ≠ [] := by simp
    have hshape : splitDot (f ++ '.' :: joinDots fs') =
        splitDotAux (f ++ '.' :: joinDots fs') [] := by
      rcases hx : f ++ '.' :: joinDots fs' with _ | ⟨c, rest⟩
      · exact absurd hx hne
      · rfl
    rw [hshape, splitDotAux_no_dot f hf ('.' :: joinDots fs') []]
    rcases hfs : fs' with _ | ⟨g, rest⟩
    · simp [splitDotAux, joinDots]
    · have hjne : joinDots (g :: rest) ≠ [] := by simp [joinDots]
      rw [splitDotAux_dot_cons (joinDots (g :: rest)) (f.reverse ++ []) hjne]
      have hrec : splitDotAux (joinDots (g :: rest)) [] =
          splitDot (joinDots (g :: rest)) := by
        rcases hy : joinDots (g :: rest) with _ | ⟨c, cs⟩
        · exact absurd hy hjne
        · rfl
      rw [hrec, ← hfs, ih hfs']
      simp

/-- The accumulator is non-empty as soon as it holds one non-empty
fragment. -/
theorem joinSep_cons_ne_nil (g : List Char) (gs : List (List Char)) (hg : g ≠ []) :
    joinSep (g :: gs) ≠ [] := by
  rcases gs with _ | ⟨g2, gs'⟩
  · simpa [joinSep] using hg
  · simp [joinSep]

/-- Appending one more fragment to a non-empty accumulator inserts the
". " separator before it. -/
theorem joinSep_append_last (s : List Char) :
    ∀ (g : List Char) (gs : List (List Char)),
      joinSep ((g :: gs) ++ [s]) = joinSep (g :: gs) ++ '.' :: ' ' :: s := by
  intro g gs
  induction gs generalizing g with
  | nil => simp [joinSep]
  | cons g2 gs' ih =>
    have h1 : joinSep ((g :: g2 :: gs') ++ [s]) =
        g ++ '.' :: ' ' :: joinSep ((g2 :: gs') ++ [s]) := by
      simp [joinSep]
    have h2 : joinSep (g :: g2 :: gs') = g ++ '.' :: ' ' :: joinSep (g2 :: gs') := by
      simp [joinSep]
    rw [h1, h2, ih g2]
    simp

/-- Scanning a '.'-free fragment with the separator remover only moves it
into the accumulator. -/
theorem splitSepAux_no_dot :
    ∀ (g : List Char), '.' ∉ g → ∀ (t acc : List Char),
      splitSepAux (g ++ t) acc = splitSepAux t (g.reverse ++ acc) := by
  intro g
  induction g with
  | nil => intro _ t acc; simp
  | cons c g' ih =>
    intro hdot t acc
    have hc : ¬c = '.' := fun h => hdot (h ▸ List.mem_cons_self c g')
    have hg' : '.' ∉ g' := fun h => hdot (List.mem_cons_of_mem c h)
    rcases hx : g' ++ t with _ | ⟨d, rest⟩
    · have hg'nil : g' = [] := (List.append_eq_nil.mp hx).1
      have htnil : t = [] := (List.append_eq_nil.mp hx).2
      subst hg'nil htnil
      simp [splitSepAux]
    · have : (c :: g') ++ t = c :: d :: rest := by
        rw [List.cons_append, hx]
      rw [this]
      have hcond : ¬(c = '.' ∧ d = ' ') := fun h => hc h.1
      simp only [splitSepAux, if_neg hcond]
      rw [← hx, ih hg' t (c :: acc)]
      simp

/-- Removing the inserted ". " separators recovers exactly the '.'-free
fragments the accumulator was built from. -/
theorem splitSep_joinSep :
    ∀ (gs : List (List Char)), gs ≠ [] → (∀ g ∈ gs, '.' ∉ g) →
      splitSep (joinSep gs) = gs := by
  intro gs
  induction gs with
  | nil => intro h _; exact absurd rfl h
  | cons g gs' ih =>
    intro _ hdots
    have hg : '.' ∉ g := hdots g (List.mem_cons_self g gs')
    have hgs' : ∀ x ∈ gs', '.' ∉ x := fun x hx => hdots x (List.mem_cons_of_mem g hx)
    rcases gs' with _ | ⟨g2, rest⟩
    · show splitSepAux (joinSep [g]) [] = [g]
      have : joinSep [g] = g ++ [] := by simp [joinSep]
      rw [this, splitSepAux_no_dot g hg [] []]
      simp [splitSepAux]
    · show splitSepAux (joinSep (g :: g2 :: rest)) [] = g :: g2 :: rest
      have hj : joinSep (g :: g2 :: rest) = g ++ '.' :: ' ' :: joinSep (g2 :: rest) := by
        simp [joinSep]
      rw [hj, splitSepAux_no_dot g hg ('.' :: ' ' :: joinSep (g2 :: rest)) []]
      have hstep : splitSepAux ('.' :: ' ' :: joinSep (g2 :: rest)) (g.reverse ++ []) =
          g :: splitSepAux (joinSep (g2 :: rest)) [] := by
        simp [splitSepAux]
      rw [hstep]
      have := ih (List.cons_ne_nil g2 rest) hgs'
      rw [show splitSep (joinSep (g2 :: rest)) =
            splitSepAux (joinSep (g2 :: rest)) [] from rfl] at this
      rw [this]

/-- Loop invariant of `TextChunker::chunk`: with non-empty '.'-free
fragments `gs` already accumulated and `fs` still pending, the emitted
chunks decompose (via separator removal) into exactly `gs ++ fs` in
order. -/
theorem chunkLoop_reconstruct (chunkSize : Int) :
    ∀ (fs : List (List Char)), (∀ f ∈ fs, f ≠ [] ∧ '.' ∉ f) →
      ∀ (gs : List (List Char)), (∀ g ∈ gs, g ≠ [] ∧ '.' ∉ g) →
        (chunkLoop chunkSize fs (joinSep gs)).flatMap splitSep = gs ++ fs := by
  intro fs
  induction fs with
  | nil =>
    intro _ gs hgs
    rcases gs with _ | ⟨g, gs'⟩
    · simp [chunkLoop, joinSep]
    · have hne : joinSep (g :: gs') ≠ [] :=
        joinSep_cons_ne_nil g gs' (hgs g (List.mem_cons_self g gs')).1
      have hchunks : chunkLoop chunkSize [] (joinSep (g :: gs')) =
          [joinSep (g :: gs')] := by
        simp [chunkLoop, hne]
      rw [hchunks]
      have hsplit : splitSep (joinSep (g :: gs')) = g :: gs' :=
        splitSep_joinSep (g :: gs') (List.cons_ne_nil g gs')
          (fun x hx => (hgs x hx).2)
      simp [hsplit]
  | cons s fs' ih =>
    intro hfs gs hgs
    have hs : s ≠ [] := (hfs s (List.mem_cons_self s fs')).1
    have hsdot : '.' ∉ s := (hfs s (List.mem_cons_self s fs')).2
    have hfs' : ∀ f ∈ fs', f ≠ [] ∧ '.' ∉ f :=
      fun f hf => hfs f (List.mem_cons_of_mem s hf)
    have hsingle : ∀ x ∈ [s], x ≠ ([] : List Char) ∧ '.' ∉ x := by
      intro x hx
      rw [List.mem_singleton.mp hx]
      exact ⟨hs, hsdot⟩
    rcases gs with _ | ⟨g, gs'⟩
    · have hstep : chunkLoop chunkSize (s :: fs') (joinSep []) =
          chunkLoop chunkSize fs' s := by
        simp [chunkLoop, joinSep, hs]
      rw [hstep]
      have := ih hfs' [s] hsingle
      rw [show joinSep [s] = s from rfl] at this
      rw [this]
      simp
    · have hgne : g ≠ [] := (hgs g (List.mem_cons_self g gs')).1
      have hcne : joinSep (g :: gs') ≠ [] := joinSep_cons_ne_nil g gs' hgne
      by_cases hlen :
          (joinSep (g :: gs')).length + s.length > toSizeT chunkSize
      · have hstep : chunkLoop chunkSize (s :: fs') (joinSep (g :: gs')) =
            joinSep (g :: gs') :: chunkLoop chunkSize fs' s := by
          simp [chunkLoop, hs, hlen, hcne]
        rw [hstep, List.flatMap_cons]
        have hrec := ih hfs' [s] hsingle
        rw [show joinSep [s] = s from rfl] at hrec
        rw [hrec,
          splitSep_joinSep (g :: gs') (List.cons_ne_nil g gs')
            (fun x hx => (hgs x hx).2)]
        simp
      · have hstep : chunkLoop chunkSize (s :: fs') (joinSep (g :: gs')) =
            chunkLoop chunkSize fs' (joinSep (g :: gs') ++ '.' :: ' ' :: s) := by
          simp [chunkLoop, hs, hlen, hcne]
        rw [hstep, ← joinSep_append_last s g gs']
        have hext : ∀ x ∈ (g :: gs') ++ [s], x ≠ ([] : List Char) ∧ '.' ∉ x := by
          intro x hx
          rcases List.mem_append.mp hx with hx1 | hx2
          · exact hgs x hx1
          · exact hsingle x hx2
        rw [ih hfs' ((g :: gs') ++ [s]) hext]
        simp

/-- Claim C1: for '.'-delimited non-empty fragment texts (no trailing
content after the last '.'), removing the inserted ". " separators from
the chunks, concatenating, and restoring the '.' delimiters reconstructs
the original text exactly, for every positive chunk size; chunk order is
document order. -/
theorem claim1_reconstruction (fs : List (List Char))
    (hfs : ∀ f ∈ fs, f ≠ [] ∧ '.' ∉ f) (chunkSize : Int) (hpos : 0 < chunkSize) :
    joinDots (((TextChunker.make chunkSize).chunk (joinDots fs)).flatMap splitSep) =
      joinDots fs := by
  show joinDots ((chunkLoop chunkSize (splitDot (joinDots fs)) []).flatMap splitSep) =
    joinDots fs
  rw [splitDot_joinDots fs (fun f hf => (hfs f hf).2)]
  have h := chunkLoop_reconstruct chunkSize fs hfs [] (by intro g hg; cases hg)
  rw [show joinSep [] = ([] : List Char) from rfl] at h
  rw [h, List.nil_append]

/-- Witness for claim C1's theorem on the fragments "a" and "b" (text
"a.b.") with chunk size 3. -/
theorem claim1_witness :
    (∀ f ∈ [['a'], ['b']], f ≠ ([] : List Char) ∧ '.' ∉ f) ∧ (0 : Int) < 3 ∧
    joinDots (((TextChunker.make 3).chunk (joinDots [['a'], ['b']])).flatMap splitSep) =
      joinDots [['a'], ['b']] :=
  ⟨by decide, by decide, claim1_reconstruction [['a'], ['b']] (by decide) 3 (by decide)⟩

end Knowledge
